import Mathlib

/-!
Verification of the npm-license-checker resolution pipeline.

Shallow embedding of `src/licenseChecker.ts`.  JavaScript runtime values that
can flow through the `license` field are modelled by `JsVal`; the process-wide
memo cache is explicit state; network traffic and the rate-limit sleep are
recorded in an event trace; exceptions (`throw`, `TypeError`) are modelled with
`Except`.  Definitions follow the TypeScript source line by line; deviations
forced by the embedding are noted in comments.
-/

set_option maxRecDepth 4096

namespace LicenseChecker

/-- A JSON-ish JavaScript value, as it can appear in a parsed registry
response (`fetchResponse.data.license`). -/
inductive JsVal where
  | vStr (s : String)
  | vNum (n : Int)
  | vBool (b : Bool)
  | vNull
  | vObj (fields : List (String × JsVal))

/-- JavaScript truthiness for the values of `JsVal`
(`''`, `0`, `false`, `null` are falsy; every object is truthy). -/
def truthy : JsVal → Bool
  | .vStr s => !s.data.isEmpty
  | .vNum n => n != 0
  | .vBool b => b
  | .vNull => false
  | .vObj _ => true

/-- Property read `obj[k]` on a plain JSON-parsed object (no inherited
properties are relevant for the keys the source reads). -/
def objLookup (fields : List (String × JsVal)) (k : String) : Option JsVal :=
  (fields.find? (fun e => e.1 == k)).map (·.2)

/-- Does the structured license object expose a string-typed `type` field?
(the test `typeof type === 'string'` in `checkDependencies`). -/
def hasStringType (fields : List (String × JsVal)) : Bool :=
  match objLookup fields "type" with
  | some (.vStr _) => true
  | _ => false

/-- Discriminator used to state that a cached value is (or is not) a string. -/
def isStringVal : JsVal → Bool
  | .vStr _ => true
  | _ => false

/-- The license cache (`fetchLicenseForPackage.prototype.cache`), an
association list; assignment conses the new binding, lookups see the most
recent one, which models JS property assignment. -/
abbrev Cache := List (String × JsVal)

/-- Reading `cache[cacheKey]`. -/
def cacheLookup (c : Cache) (k : String) : Option JsVal :=
  (c.find? (fun e => e.1 == k)).map (·.2)

/-- Assignment `cache[cacheKey] = v`. -/
def cacheInsert (c : Cache) (k : String) (v : JsVal) : Cache :=
  (k, v) :: c

/-- The truthiness-guarded cache test `if (cache[cacheKey])`: yields the entry
only when it is present and truthy. -/
def cacheHit (c : Cache) (k : String) : Option JsVal :=
  match cacheLookup c k with
  | some v => if truthy v then some v else none
  | none => none

/-- Observable effects of one resolution: the rate-limit sleep and the
registry request (`await sleep(..., 1001)` / `axios.get(registryUrl)`). -/
inductive Event where
  | sleepEv (ms : Nat)
  | networkEv (url : String)

/-- What the remote registry does for one request: a 2xx response whose JSON
body optionally carries a `license` field, or any axios failure (non-2xx,
network error, timeout) with whatever `response.status` / `response.statusText`
information the failure carries. -/
inductive RegistryResponse where
  | success (licenseField : Option JsVal)
  | failure (status : Option Nat) (statusText : Option String)

/-- The remote registry, as an oracle from (packageName, packageVersion). -/
abbrev Registry := String → String → RegistryResponse

/-- JS template-literal rendering of `axiosError.response?.status`. -/
def jsTemplateNat : Option Nat → String
  | some n => toString n
  | none => "undefined"

/-- JS template-literal rendering of `axiosError.response?.statusText`. -/
def jsTemplateStr : Option String → String
  | some s => s
  | none => "undefined"

/-- True when the first list starts the second (models `String.prototype.startsWith`). -/
def startsWithList : List Char → List Char → Bool
  | [], _ => true
  | _ :: _, [] => false
  | p :: ps, c :: cs => p == c && startsWithList ps cs

/-- Model of `filename.endsWith('.json')`. -/
def jsEndsWith (s suffixStr : String) : Bool :=
  startsWithList suffixStr.data.reverse s.data.reverse

/-- Model of `s.toLowerCase()` (ASCII, which covers every specifier scheme tested). -/
def jsToLower (s : String) : String := ⟨s.data.map Char.toLower⟩

/-- The test `packageVersion.toLowerCase().startsWith('file:') || ...startsWith('link:')`. -/
def isLocalSpecifier (v : String) : Bool :=
  startsWithList "file:".data (jsToLower v).data ||
    startsWithList "link:".data (jsToLower v).data

/-- The cache key `` `${packageName}@${packageVersion}` ``. -/
def cacheKeyOf (packageName packageVersion : String) : String :=
  packageName ++ "@" ++ packageVersion

/-- The request URL `` `https://registry.npmjs.org/${packageName}/${packageVersion}` ``. -/
def registryUrlOf (packageName packageVersion : String) : String :=
  "https://registry.npmjs.org/" ++ packageName ++ "/" ++ packageVersion

/-- The expression `fetchResponse.data.license || '[BLANK]'`: the license field of a
successful response body, defaulted when absent or falsy. -/
def defaultedLicense : Option JsVal → JsVal
  | some l => if truthy l then l else JsVal.vStr "[BLANK]"
  | none => JsVal.vStr "[BLANK]"

/-- Body of `fetchLicenseForPackage` past the cache test: the local/link skip,
the rate-limit sleep, the request, and the `try/catch` that turns any axios
failure into an `[ERROR: ...]` marker.  Returns the resolved value, the
updated cache and the emitted events. -/
def fetchLicenseFresh (reg : Registry) (cache : Cache)
    (packageName packageVersion cacheKey : String) : JsVal × Cache × List Event :=
  if isLocalSpecifier packageVersion then
    -- return (cache[cacheKey] = packageLicense = `[SKIPPED: ${packageVersion}]`)
    (JsVal.vStr ("[SKIPPED: " ++ packageVersion ++ "]"),
      cacheInsert cache cacheKey (JsVal.vStr ("[SKIPPED: " ++ packageVersion ++ "]")), [])
  else
    -- await sleep("Let's not DoS the npmjs.org registry", 1001); axios.get(...)
    match reg packageName packageVersion with
    | .success licenseField =>
      -- cache[cacheKey] = packageLicense = fetchResponse.data.license || '[BLANK]'
      (defaultedLicense licenseField, cacheInsert cache cacheKey (defaultedLicense licenseField),
        [Event.sleepEv 1001, Event.networkEv (registryUrlOf packageName packageVersion)])
    | .failure status statusText =>
      -- packageLicense = `[ERROR: ${...status}: ${...statusText}]`; not cached
      (JsVal.vStr ("[ERROR: " ++ jsTemplateNat status ++ ": " ++ jsTemplateStr statusText ++ "]"),
        cache,
        [Event.sleepEv 1001, Event.networkEv (registryUrlOf packageName packageVersion)])

/-- The client `fetchLicenseForPackage(packageName, packageVersion)`.
The `if (cache[cacheKey]) return ...` early exit, then the fresh path. -/
def fetchLicenseForPackage (reg : Registry) (cache : Cache)
    (packageName packageVersion : String) : JsVal × Cache × List Event :=
  match cacheHit cache (cacheKeyOf packageName packageVersion) with
  | some v => (v, cache, [])
  | none =>
    fetchLicenseFresh reg cache packageName packageVersion
      (cacheKeyOf packageName packageVersion)

/-! ## The `semver` package: `semver.valid` and `semver.coerce`

Model of the npm `semver` library as used by `getCleanNpmPackageVersion`:
`valid(v)` parses `v` against the strict FULL grammar (optional surrounding
whitespace and one optional leading `v`; `major.minor.patch` as numeric
identifiers without leading zeros and at most `Number.MAX_SAFE_INTEGER`;
optional dot-separated prerelease; optional dot-separated build metadata) and
returns the parsed `SemVer`'s `.version`, which re-prints
`major.minor.patch[-prerelease]` and drops build metadata.  `coerce(v)` finds
the leftmost run of 1–16 digits preceded by start-of-string or a non-digit,
takes up to two further `.digits` groups, and re-parses `maj.min.pat`. -/

/-- The constant `Number.MAX_SAFE_INTEGER`. -/
def maxSafeInteger : Nat := 9007199254740991

/-- All characters are decimal digits. -/
def allDigits (l : List Char) : Bool := l.all (·.isDigit)

/-- The semver `NUMERICIDENTIFIER` class: `0|[1-9]\d*`. -/
def numericIdOk (l : List Char) : Bool :=
  !l.isEmpty && allDigits l && (l == ['0'] || l.head? != some '0')

/-- Numeric value of a digit string. -/
def natOfDigits (l : List Char) : Nat :=
  l.foldl (fun a c => a * 10 + (c.toNat - 48)) 0

/-- A `major`/`minor`/`patch` component: numeric identifier within
`Number.MAX_SAFE_INTEGER` (the `SemVer` constructor throws beyond it). -/
def mainIdOk (l : List Char) : Bool :=
  numericIdOk l && decide (natOfDigits l ≤ maxSafeInteger)

/-- Characters allowed in prerelease/build identifiers: `[0-9A-Za-z-]`. -/
def identCharOk (c : Char) : Bool := c.isDigit || c.isAlpha || c == '-'

/-- One prerelease identifier: numeric (no leading zeros) or alphanumeric. -/
def prereleaseIdOk (l : List Char) : Bool :=
  !l.isEmpty && l.all identCharOk &&
    (!allDigits l || l == ['0'] || l.head? != some '0')

/-- One build-metadata identifier. -/
def buildIdOk (l : List Char) : Bool := !l.isEmpty && l.all identCharOk

/-- Split a character list at every occurrence of `c` (keeping empty parts),
used for the `.`-separated pieces of the grammar. -/
def splitOnChar (c : Char) : List Char → List (List Char)
  | [] => [[]]
  | x :: xs =>
    let r := splitOnChar c xs
    if x == c then [] :: r
    else
      match r with
      | [] => [[x]]
      | y :: ys => (x :: y) :: ys

/-- Split at the first occurrence of `c`: the part before it and, when `c`
occurs, the part after it. -/
def breakFirst (c : Char) : List Char → List Char × Option (List Char)
  | [] => ([], none)
  | x :: xs =>
    if x == c then ([], some xs)
    else
      let r := breakFirst c xs
      (x :: r.1, r.2)

/-- Model of `String.prototype.trim` on the character list. -/
def jsTrim (l : List Char) : List Char :=
  ((l.dropWhile Char.isWhitespace).reverse.dropWhile Char.isWhitespace).reverse

/-- The optional leading `v` of the strict FULL grammar. -/
def stripLeadingV : List Char → List Char
  | [] => []
  | c :: rest => if c == 'v' then rest else c :: rest

/-- Strict parse of a trimmed version string, returning the `SemVer`'s
`.version` text: `major.minor.patch` plus the prerelease (build dropped). -/
def validCore (l : List Char) : Option (List Char) :=
  let t := stripLeadingV (jsTrim l)
  let coreBuild := breakFirst '+' t
  let buildOk := match coreBuild.2 with
    | none => true
    | some b => (splitOnChar '.' b).all buildIdOk
  let mainPre := breakFirst '-' coreBuild.1
  let preOk := match mainPre.2 with
    | none => true
    | some p => (splitOnChar '.' p).all prereleaseIdOk
  match splitOnChar '.' mainPre.1 with
  | [ma, mi, pa] =>
    if mainIdOk ma && mainIdOk mi && mainIdOk pa && preOk && buildOk then
      some (ma ++ '.' :: mi ++ '.' :: pa ++
        (match mainPre.2 with
         | none => []
         | some p => '-' :: p))
    else none
  | _ => none

/-- Model of `semver.valid(v)`: `null` for non-strings and overlong input, else the
parsed `.version` string. -/
def semverValid (s : String) : Option String :=
  if s.length > 256 then none
  else (validCore s.data).map (fun l => ⟨l⟩)

/-- The optional `.digits` groups of `COERCE` after a matched major run:
backtracking skips a group whose digit run is empty or longer than 16. -/
def coerceTail (r1 : List Char) (rest1 : List Char) : List Char × List Char × List Char :=
  match rest1 with
  | '.' :: rest2 =>
    if (rest2.takeWhile (·.isDigit)).isEmpty ||
        decide ((rest2.takeWhile (·.isDigit)).length > 16) then (r1, ['0'], ['0'])
    else
      match rest2.dropWhile (·.isDigit) with
      | '.' :: rest4 =>
        if (rest4.takeWhile (·.isDigit)).isEmpty ||
            decide ((rest4.takeWhile (·.isDigit)).length > 16) then
          (r1, rest2.takeWhile (·.isDigit), ['0'])
        else (r1, rest2.takeWhile (·.isDigit), rest4.takeWhile (·.isDigit))
      | _ => (r1, rest2.takeWhile (·.isDigit), ['0'])
  | _ => (r1, ['0'], ['0'])

/-- Leftmost match of the `COERCE` pattern: scan for a digit run preceded by
start or a non-digit (`prevDigit` records whether the previous character was
a digit, so positions inside a run are never match starts); a candidate run
longer than 16 digits cannot satisfy the trailing boundary and the scan
continues past it. -/
def coerceScan : Bool → List Char → Option (List Char × List Char × List Char)
  | _, [] => none
  | prevDigit, c :: rest =>
    if c.isDigit then
      if prevDigit then coerceScan true rest
      else
        if decide ((c :: rest.takeWhile (·.isDigit)).length ≤ 16) then
          some (coerceTail (c :: rest.takeWhile (·.isDigit)) (rest.dropWhile (·.isDigit)))
        else coerceScan true rest
    else coerceScan false rest

/-- The scan starts at the beginning of the string (`^` counts as a valid
left boundary). -/
def coerceTriple (l : List Char) : Option (List Char × List Char × List Char) :=
  coerceScan false l

/-- Model of `semver.coerce(v)` followed by the strict re-parse `parse(maj.min.pat)`
inside it, as the `.version` string; `null` when no token matches or the
re-parse rejects (leading zeros, beyond `MAX_SAFE_INTEGER`). -/
def semverCoerce (s : String) : Option String :=
  match coerceTriple s.data with
  | none => none
  | some (a, b, c) =>
    if mainIdOk a && mainIdOk b && mainIdOk c then
      some ⟨a ++ '.' :: b ++ '.' :: c⟩
    else none

/-- The normalizer `getCleanNpmPackageVersion`:
`semver.valid(v) || semver.valid(semver.coerce(v)) || v`
(valid never returns an empty — falsy — string, so `||` is this match). -/
def getCleanNpmPackageVersion (packageJsonVersion : String) : String :=
  match semverValid packageJsonVersion with
  | some s => s
  | none =>
    match semverCoerce packageJsonVersion with
    | some c =>
      match semverValid c with
      | some s => s
      | none => packageJsonVersion
    | none => packageJsonVersion

/-! ## Dependency extraction (`getDependencies`) -/

/-- The union type `'dependencies' | 'devDependencies' | 'peerDependencies' |
'optionalDependencies'`. -/
inductive PackageDotJsonDependencyType where
  | dependencies | devDependencies | peerDependencies | optionalDependencies
deriving DecidableEq

/-- One record of the report (the TS `PackageDotJsonDependency` type);
`packageLicense` is absent until resolution assigns it. -/
structure PackageDotJsonDependency where
  projectName : String
  packageName : String
  packageVersion : String
  packageLicense : Option String
deriving DecidableEq

/-- One manifest file of the `packageJsons` directory: its filename and, per
dependency kind, the entries of that key when it is present and truthy
(`if (!packageDependencies) continue` treats an absent and a falsy key the
same way).  Entries are in declaration order; per the input contract every
version specifier is a string. -/
structure Manifest where
  filename : String
  depsOf : PackageDotJsonDependencyType → Option (List (String × String))

/-- A string is a JS array index (canonical decimal, below `2^32 - 1`):
such own-property keys are enumerated first, in ascending numeric order. -/
def isArrayIndexKey (s : String) : Bool :=
  !s.data.isEmpty && allDigits s.data &&
    (s.data == ['0'] || s.data.head? != some '0') &&
    decide (natOfDigits s.data < 4294967295)

/-- Insertion into a list kept ascending by numeric key value. -/
def insertAscByKey (e : String × String) :
    List (String × String) → List (String × String)
  | [] => [e]
  | x :: xs =>
    if natOfDigits e.1.data < natOfDigits x.1.data then e :: x :: xs
    else x :: insertAscByKey e xs

/-- Sort ascending by numeric key value. -/
def sortAscByKey : List (String × String) → List (String × String)
  | [] => []
  | x :: xs => insertAscByKey x (sortAscByKey xs)

/-- Model of `Object.entries` on a JSON-parsed object: array-index keys first in
ascending numeric order, then the remaining keys in declaration order
(ECMA-262 ordinary own-property order). -/
def jsEntriesOrder (entries : List (String × String)) : List (String × String) :=
  sortAscByKey (entries.filter fun e => isArrayIndexKey e.1) ++
    entries.filter fun e => !isArrayIndexKey e.1

/-- The suffix of `l` starting at its last `'.'`, if any. -/
def lastDotSuffix : List Char → Option (List Char)
  | [] => none
  | c :: rest =>
    match lastDotSuffix rest with
    | some s => some s
    | none => if c == '.' then some (c :: rest) else none

/-- Model of `path.extname(filename)`: the extension from the last `'.'`, empty when
there is none or when the only `'.'` is the leading character. -/
def pathExtname (fn : String) : String :=
  match fn.data with
  | [] => ""
  | _ :: rest =>
    match lastDotSuffix rest with
    | some s => ⟨s⟩
    | none => ""

/-- Model of `String.prototype.replace` with a plain-string pattern: first occurrence
only (the empty pattern matches at the start). -/
def replaceFirstList (pat repl : List Char) : List Char → List Char
  | [] => if pat.isEmpty then repl else []
  | c :: rest =>
    if startsWithList pat (c :: rest) then repl ++ (c :: rest).drop pat.length
    else c :: replaceFirstList pat repl rest

/-- The project name `filename.replace(path.extname(filename), '')`. -/
def projectNameOf (fn : String) : String :=
  ⟨replaceFirstList (pathExtname fn).data [] fn.data⟩

/-- Concatenation of the per-manifest record lists, preserving order. -/
def flatMapList (f : α → List β) : List α → List β
  | [] => []
  | x :: xs => f x ++ flatMapList f xs

/-- Records contributed by one manifest: none when the requested kind is
missing (a warning only), else one record per entry of `Object.entries`,
with the version normalized and the license unset. -/
def manifestRecords (type : PackageDotJsonDependencyType) (m : Manifest) :
    List PackageDotJsonDependency :=
  match m.depsOf type with
  | none => []
  | some entries =>
    (jsEntriesOrder entries).map fun e =>
      { projectName := projectNameOf m.filename
        packageName := e.1
        packageVersion := getCleanNpmPackageVersion e.2
        packageLicense := none }

/-- Extraction `getDependencies(type)`: every `*.json` file of the directory listing, in
enumeration order, flattened into one record sequence. -/
def getDependencies (files : List Manifest) (type : PackageDotJsonDependencyType) :
    List PackageDotJsonDependency :=
  flatMapList (manifestRecords type)
    (files.filter fun m => jsEndsWith m.filename ".json")

/-! ## Reporting sink (`toCsv`) and the run (`checkDependencies`) -/

/-- Model of `Object.keys(record)` in insertion order (`packageLicense` is added by the
resolution loop, hence last, and only when present). -/
def csvKeys (r : PackageDotJsonDependency) : List String :=
  ["projectName", "packageName", "packageVersion"] ++
    (if r.packageLicense.isSome then ["packageLicense"] else [])

/-- Model of `Object.values(record)` in the same order. -/
def csvValues (r : PackageDotJsonDependency) : List String :=
  [r.projectName, r.packageName, r.packageVersion] ++
    (match r.packageLicense with
     | some l => [l]
     | none => [])

/-- Conversion `toCsv(data)`: reads `data[0]` unconditionally for the header row, so an
empty array throws (`Object.keys(undefined)`), modelled as `none`; rows are
unescaped comma-joins. -/
def toCsv : List PackageDotJsonDependency → Option String
  | [] => none
  | r :: rs =>
    some (String.intercalate "," (csvKeys r) ++ "\n" ++
      String.intercalate "\n" ((r :: rs).map fun x => String.intercalate "," (csvValues x)))

/-- The exceptions the run can die of. -/
inductive JsError where
  /-- The statement `throw new Error('Unrecognized package license definition.')`. -/
  | unrecognizedLicense
  /-- A `TypeError` from `pkg.packageLicense.startsWith` on a non-string value. -/
  | typeErrorNonString
  /-- A `TypeError` from `Object.keys(undefined)` inside `toCsv` on an empty batch. -/
  | typeErrorCsvUndefined
deriving DecidableEq

/-- Result-shape normalization inside the resolution loop: a string passes
through; a structured object yields its string `type` field or throws; any
other value skips the `typeof === 'object'` block and then crashes at
`pkg.packageLicense.startsWith('[')`. -/
def normalizeLicense : JsVal → Except JsError String
  | .vStr s => .ok s
  | .vObj fields =>
    match objLookup fields "type" with
    | some (.vStr t) => .ok t
    | _ => .error .unrecognizedLicense
  | _ => .error .typeErrorNonString

/-- State threaded through the resolution loop. -/
structure LoopOut where
  result : Except JsError (List PackageDotJsonDependency)
  cache : Cache
  events : List Event
  raws : List JsVal

/-- One iteration of the `for (const pkg of packages)` loop: `f` is what
`fetchLicenseForPackage` produced for `pkg`, `t` the outcome of the remaining
iterations (started on the cache `f` left behind).  Shape normalization
happens before the loop proceeds; a throw aborts the remainder. -/
def resolveStep (pkg : PackageDotJsonDependency) (f : JsVal × Cache × List Event)
    (t : LoopOut) : LoopOut :=
  match normalizeLicense f.1 with
  | .error e => ⟨.error e, f.2.1, f.2.2, [f.1]⟩
  | .ok s =>
    match t.result with
    | .error e => ⟨.error e, t.cache, f.2.2 ++ t.events, f.1 :: t.raws⟩
    | .ok rs =>
      ⟨.ok ({ pkg with packageLicense := some s } :: rs), t.cache,
        f.2.2 ++ t.events, f.1 :: t.raws⟩

/-- The resolution loop of `checkDependencies`: resolve each record in order
through cache and client, normalize the shape, and assign the license.
`raws` logs each resolved value before normalization (instrumentation only). -/
def resolveLoop (reg : Registry) :
    List PackageDotJsonDependency → Cache → LoopOut
  | [], cache => ⟨.ok [], cache, [], []⟩
  | pkg :: rest, cache =>
    resolveStep pkg (fetchLicenseForPackage reg cache pkg.packageName pkg.packageVersion)
      (resolveLoop reg rest
        (fetchLicenseForPackage reg cache pkg.packageName pkg.packageVersion).2.1)

/-- Everything a run produces: the records handed to the sink (or the escaped
exception), the CSV content written by `writeCsvFile` (only on full success),
the event trace, the resolved-value log and the final cache. -/
structure RunOutput where
  result : Except JsError (List PackageDotJsonDependency)
  csv : Option String
  events : List Event
  rawLicenses : List JsVal
  finalCache : Cache

/-- After the loop: an escaped exception ends the run with no CSV, else
`console.table(packages)` and `writeCsvFile(packages, type)` run on the
finished batch (the `Object.keys(undefined)` throw inside `toCsv` also ends
the run with no CSV). -/
def finishRun (out : LoopOut) : RunOutput :=
  match out.result with
  | .error e => ⟨.error e, none, out.events, out.raws, out.cache⟩
  | .ok recs =>
    match toCsv recs with
    | none => ⟨.error .typeErrorCsvUndefined, none, out.events, out.raws, out.cache⟩
    | some content => ⟨.ok recs, some content, out.events, out.raws, out.cache⟩

/-- The run `checkDependencies(type)`: extraction, the resolution loop, then
`console.table` and `writeCsvFile` on the finished batch.  A fatal error
leaves no CSV for the kind. -/
def checkDependencies (reg : Registry) (files : List Manifest)
    (type : PackageDotJsonDependencyType) (cache0 : Cache) : RunOutput :=
  finishRun (resolveLoop reg (getDependencies files type) cache0)

/-! ## Helper lemmas about the registry client -/

/-- The truthiness-guarded test only ever yields truthy entries. -/
theorem cacheHit_truthy {c : Cache} {k : String} {val : JsVal}
    (h : cacheHit c k = some val) : truthy val = true := by
  unfold cacheHit at h
  cases hl : cacheLookup c k with
  | none => rw [hl] at h; exact absurd h (by simp)
  | some w =>
    rw [hl] at h
    simp only [] at h
    split at h
    · cases h; assumption
    · cases h

/-- Reading back the key just assigned. -/
theorem cacheLookup_insert_self (c : Cache) (k : String) (v : JsVal) :
    cacheLookup (cacheInsert c k v) k = some v := by
  simp [cacheLookup, cacheInsert, List.find?]

/-- Reading a different key is unaffected by an assignment. -/
theorem cacheLookup_insert_other (c : Cache) (k k' : String) (v : JsVal)
    (h : k' ≠ k) : cacheLookup (cacheInsert c k v) k' = cacheLookup c k' := by
  simp [cacheLookup, cacheInsert, List.find?, beq_eq_false_iff_ne.mpr (Ne.symm h),
    bne_iff_ne, h]

/-- A cache hit returns the cached value with no delay and no request. -/
theorem fetch_hit {reg : Registry} {c : Cache} {n v : String} {val : JsVal}
    (h : cacheHit c (cacheKeyOf n v) = some val) :
    fetchLicenseForPackage reg c n v = (val, c, []) := by
  unfold fetchLicenseForPackage
  rw [h]

/-- On a cache miss the fresh path runs. -/
theorem fetch_miss {reg : Registry} {c : Cache} {n v : String}
    (h : cacheHit c (cacheKeyOf n v) = none) :
    fetchLicenseForPackage reg c n v =
      fetchLicenseFresh reg c n v (cacheKeyOf n v) := by
  unfold fetchLicenseForPackage
  rw [h]

/-- The local/link skip: marker value, cached, no events. -/
theorem fresh_local {reg : Registry} {c : Cache} {n v k : String}
    (h : isLocalSpecifier v = true) :
    fetchLicenseFresh reg c n v k =
      (.vStr ("[SKIPPED: " ++ v ++ "]"),
        cacheInsert c k (.vStr ("[SKIPPED: " ++ v ++ "]")), []) := by
  unfold fetchLicenseFresh
  rw [if_pos h]

/-- A failed request: error marker, cache untouched, sleep then request. -/
theorem fresh_failure {reg : Registry} {c : Cache} {n v k : String}
    {st : Option Nat} {stx : Option String}
    (h : isLocalSpecifier v = false) (hr : reg n v = .failure st stx) :
    fetchLicenseFresh reg c n v k =
      (.vStr ("[ERROR: " ++ jsTemplateNat st ++ ": " ++ jsTemplateStr stx ++ "]"),
        c, [Event.sleepEv 1001, Event.networkEv (registryUrlOf n v)]) := by
  unfold fetchLicenseFresh
  rw [if_neg (by simp [h]), hr]

/-- A successful request: the (defaulted) license value, cached, sleep then
request. -/
theorem fresh_success {reg : Registry} {c : Cache} {n v k : String}
    {lf : Option JsVal}
    (h : isLocalSpecifier v = false) (hr : reg n v = .success lf) :
    fetchLicenseFresh reg c n v k =
      (defaultedLicense lf, cacheInsert c k (defaultedLicense lf),
        [Event.sleepEv 1001, Event.networkEv (registryUrlOf n v)]) := by
  unfold fetchLicenseFresh
  rw [if_neg (by simp [h]), hr]

/-- The defaulted license value of a successful response is truthy. -/
theorem defaultedLicense_truthy (lf : Option JsVal) :
    truthy (defaultedLicense lf) = true := by
  cases lf with
  | none => rfl
  | some l =>
    simp only [defaultedLicense]
    by_cases ht : truthy l = true
    · rw [if_pos ht]; exact ht
    · rw [if_neg ht]; rfl

/-- Every value the fresh path returns is truthy: markers are non-empty
strings, and a registry license value is defaulted to `[BLANK]` when falsy. -/
theorem fresh_truthy (reg : Registry) (c : Cache) (n v k : String) :
    truthy (fetchLicenseFresh reg c n v k).1 = true := by
  unfold fetchLicenseFresh
  by_cases hl : isLocalSpecifier v = true
  · rw [if_pos hl]; rfl
  · rw [if_neg hl]
    cases hr : reg n v with
    | success lf => exact defaultedLicense_truthy lf
    | failure st stx => rfl

/-- Every value `fetchLicenseForPackage` resolves is truthy (the cache-hit
branch is guarded by truthiness, the fresh branch by `fresh_truthy`). -/
theorem fetch_truthy (reg : Registry) (c : Cache) (n v : String) :
    truthy (fetchLicenseForPackage reg c n v).1 = true := by
  unfold fetchLicenseForPackage
  cases hh : cacheHit c (cacheKeyOf n v) with
  | some val => exact cacheHit_truthy hh
  | none => exact fresh_truthy reg c n v _

/-- The fresh path stores only truthy values. -/
theorem fresh_cache_truthy (reg : Registry) (c : Cache) (n v k : String)
    (hc : ∀ e ∈ c, truthy e.2 = true) :
    ∀ e ∈ (fetchLicenseFresh reg c n v k).2.1, truthy e.2 = true := by
  by_cases hl : isLocalSpecifier v = true
  · rw [fresh_local hl]
    intro e he
    rcases List.mem_cons.mp he with h | h
    · subst h; rfl
    · exact hc e h
  · have hl' : isLocalSpecifier v = false := by simpa using hl
    cases hr : reg n v with
    | success lf =>
      rw [fresh_success hl' hr]
      intro e he
      rcases List.mem_cons.mp he with h | h
      · subst h; exact defaultedLicense_truthy lf
      · exact hc e h
    | failure st stx =>
      rw [fresh_failure hl' hr]
      exact hc

/-- The whole client stores only truthy values. -/
theorem fetch_cache_truthy (reg : Registry) (c : Cache) (n v : String)
    (hc : ∀ e ∈ c, truthy e.2 = true) :
    ∀ e ∈ (fetchLicenseForPackage reg c n v).2.1, truthy e.2 = true := by
  unfold fetchLicenseForPackage
  cases hh : cacheHit c (cacheKeyOf n v) with
  | some val => exact hc
  | none => exact fresh_cache_truthy reg c n v _ hc

/-- The trace of one resolution is empty or exactly sleep-then-request. -/
theorem fetch_events_shape (reg : Registry) (c : Cache) (n v : String) :
    (fetchLicenseForPackage reg c n v).2.2 = [] ∨
      (fetchLicenseForPackage reg c n v).2.2 =
        [Event.sleepEv 1001, Event.networkEv (registryUrlOf n v)] := by
  unfold fetchLicenseForPackage
  cases hh : cacheHit c (cacheKeyOf n v) with
  | some val => exact Or.inl rfl
  | none =>
    by_cases hl : isLocalSpecifier v = true
    · rw [fresh_local hl]
      exact Or.inl rfl
    · have hl' : isLocalSpecifier v = false := by simpa using hl
      cases hr : reg n v with
      | success lf =>
        rw [fresh_success hl' hr]
        exact Or.inr rfl
      | failure st stx =>
        rw [fresh_failure hl' hr]
        exact Or.inr rfl

/-! ## Trace predicates and loop invariants -/

/-- Is an event a registry request? -/
def isNetworkEv : Event → Bool
  | .networkEv _ => true
  | .sleepEv _ => false

/-- Number of registry requests in a trace. -/
def countNetwork (l : List Event) : Nat := (l.filter isNetworkEv).length

/-- Every request in the trace is immediately preceded by the fixed
1001 ms sleep. -/
def gapOk : List Event → Bool
  | [] => true
  | .networkEv _ :: _ => false
  | .sleepEv ms :: .networkEv _ :: rest => (ms == 1001) && gapOk rest
  | .sleepEv _ :: rest => gapOk rest

/-- Prepending one sleep-then-request block preserves `gapOk`. -/
theorem gapOk_block (u : String) (t : List Event) (h : gapOk t = true) :
    gapOk (Event.sleepEv 1001 :: Event.networkEv u :: t) = true := by
  simp [gapOk, h]

/-- The step's trace is the fetch trace followed by the tail trace (or the
fetch trace alone when the step throws). -/
theorem resolveStep_events (pkg : PackageDotJsonDependency)
    (f : JsVal × Cache × List Event) (t : LoopOut) :
    (resolveStep pkg f t).events = f.2.2 ∨
      (resolveStep pkg f t).events = f.2.2 ++ t.events := by
  unfold resolveStep
  cases hn : normalizeLicense f.1 with
  | error e => exact Or.inl rfl
  | ok s =>
    cases ht : t.result with
    | error e => exact Or.inr rfl
    | ok rs => exact Or.inr rfl

/-- A step whose fetch trace has the client's shape preserves `gapOk`. -/
theorem resolveStep_gapOk (pkg : PackageDotJsonDependency)
    (f : JsVal × Cache × List Event) (t : LoopOut)
    (hf : f.2.2 = [] ∨ ∃ u, f.2.2 = [Event.sleepEv 1001, Event.networkEv u])
    (ht : gapOk t.events = true) :
    gapOk (resolveStep pkg f t).events = true := by
  rcases resolveStep_events pkg f t with he | he <;> rw [he]
  · rcases hf with h | ⟨u, h⟩ <;> rw [h] <;> rfl
  · rcases hf with h | ⟨u, h⟩ <;> rw [h]
    · exact ht
    · exact gapOk_block u t.events ht

/-- Traces of the resolution loop satisfy `gapOk`, package by package. -/
theorem resolveLoop_gapOk (reg : Registry) :
    ∀ (pkgs : List PackageDotJsonDependency) (cache : Cache),
      gapOk (resolveLoop reg pkgs cache).events = true
  | [], _ => rfl
  | pkg :: rest, cache => by
    unfold resolveLoop
    refine resolveStep_gapOk _ _ _ ?_ (resolveLoop_gapOk reg rest _)
    rcases fetch_events_shape reg cache pkg.packageName pkg.packageVersion with h | h
    · exact Or.inl h
    · exact Or.inr ⟨_, h⟩

/-- Two lists are index-aligned under a relation. -/
def PairwiseRel (R : α → β → Prop) : List α → List β → Prop
  | [], [] => True
  | a :: as, b :: bs => R a b ∧ PairwiseRel R as bs
  | _, _ => False

/-- Alignment applies to every pair of the zip. -/
theorem pairwiseRel_zip_mem {R : α → β → Prop} :
    ∀ {as : List α} {bs : List β}, PairwiseRel R as bs →
      ∀ a b, (a, b) ∈ as.zip bs → R a b
  | [], [], _, _, _, hm => by cases hm
  | [], _ :: _, h, _, _, _ => h.elim
  | _ :: _, [], h, _, _, _ => h.elim
  | a0 :: as, b0 :: bs, h, a, b, hm => by
    rcases List.mem_cons.mp hm with he | ht
    · cases he; exact h.1
    · exact pairwiseRel_zip_mem h.2 a b ht

/-- Alignment under pointwise map equality gives map equality. -/
theorem pairwiseRel_map_eq {f : α → γ} {g : β → γ} :
    ∀ {as : List α} {bs : List β},
      PairwiseRel (fun a b => f a = g b) as bs → as.map f = bs.map g
  | [], [], _ => rfl
  | [], _ :: _, h => h.elim
  | _ :: _, [], h => h.elim
  | a0 :: as, b0 :: bs, h => by
    simp only [List.map_cons, h.1, pairwiseRel_map_eq h.2]

/-- Aligned lists have equal lengths. -/
theorem pairwiseRel_length {R : α → β → Prop} :
    ∀ {as : List α} {bs : List β}, PairwiseRel R as bs → as.length = bs.length
  | [], [], _ => rfl
  | [], _ :: _, h => h.elim
  | _ :: _, [], h => h.elim
  | _ :: as, _ :: bs, h => by
    simp only [List.length_cons, pairwiseRel_length h.2]

/-- Inverting a successful step: the resolved value normalized to `s`, the
tail succeeded, and the record for `pkg` carries `s`. -/
theorem resolveStep_ok {pkg : PackageDotJsonDependency}
    {f : JsVal × Cache × List Event} {t : LoopOut}
    {recs : List PackageDotJsonDependency}
    (h : (resolveStep pkg f t).result = .ok recs) :
    ∃ s rs, normalizeLicense f.1 = .ok s ∧ t.result = .ok rs ∧
      recs = { pkg with packageLicense := some s } :: rs ∧
      (resolveStep pkg f t).raws = f.1 :: t.raws ∧
      (resolveStep pkg f t).cache = t.cache := by
  unfold resolveStep at h ⊢
  cases hn : normalizeLicense f.1 with
  | error e => rw [hn] at h; cases h
  | ok s =>
    rw [hn] at h
    cases ht : t.result with
    | error e =>
      rw [ht] at h
      cases h
    | ok rs =>
      rw [ht] at h
      cases h
      exact ⟨s, rs, rfl, rfl, rfl, rfl, rfl⟩

/-- The step leaves either the fetch cache or the tail cache. -/
theorem resolveStep_cache (pkg : PackageDotJsonDependency)
    (f : JsVal × Cache × List Event) (t : LoopOut) :
    (resolveStep pkg f t).cache = f.2.1 ∨ (resolveStep pkg f t).cache = t.cache := by
  unfold resolveStep
  cases hn : normalizeLicense f.1 with
  | error e => exact Or.inl rfl
  | ok s =>
    cases ht : t.result with
    | error e => exact Or.inr rfl
    | ok rs => exact Or.inr rfl

/-- License alignment of a finished batch: each record was assigned exactly
the normalization of the (truthy) value the client resolved for it. -/
theorem resolveLoop_ok_licenses (reg : Registry) :
    ∀ (pkgs : List PackageDotJsonDependency) (cache : Cache)
      (recs : List PackageDotJsonDependency),
      (resolveLoop reg pkgs cache).result = .ok recs →
      PairwiseRel
        (fun r v => truthy v = true ∧
          ∃ s, normalizeLicense v = .ok s ∧ r.packageLicense = some s)
        recs (resolveLoop reg pkgs cache).raws
  | [], _, recs, h => by
    cases h
    exact trivial
  | pkg :: rest, cache, recs, h => by
    unfold resolveLoop at h ⊢
    rcases resolveStep_ok h with ⟨s, rs, hn, ht, hrecs, hraws, _⟩
    rw [hrecs, hraws]
    refine ⟨⟨fetch_truthy reg cache pkg.packageName pkg.packageVersion, s, hn, rfl⟩, ?_⟩
    exact resolveLoop_ok_licenses reg rest _ rs ht

/-- Field alignment of a finished batch: records come from the extracted
sequence, in order, one per package, only the license field assigned. -/
theorem resolveLoop_ok_fields (reg : Registry) :
    ∀ (pkgs : List PackageDotJsonDependency) (cache : Cache)
      (recs : List PackageDotJsonDependency),
      (resolveLoop reg pkgs cache).result = .ok recs →
      PairwiseRel
        (fun r p => r.projectName = p.projectName ∧ r.packageName = p.packageName ∧
          r.packageVersion = p.packageVersion)
        recs pkgs
  | [], _, recs, h => by
    cases h
    exact trivial
  | pkg :: rest, cache, recs, h => by
    unfold resolveLoop at h
    rcases resolveStep_ok h with ⟨s, rs, hn, ht, hrecs, _, _⟩
    rw [hrecs]
    exact ⟨⟨rfl, rfl, rfl⟩, resolveLoop_ok_fields reg rest _ rs ht⟩

/-- The loop only ever stores truthy values in the cache. -/
theorem resolveLoop_cache_truthy (reg : Registry) :
    ∀ (pkgs : List PackageDotJsonDependency) (cache : Cache),
      (∀ e ∈ cache, truthy e.2 = true) →
      ∀ e ∈ (resolveLoop reg pkgs cache).cache, truthy e.2 = true
  | [], _, hc => hc
  | pkg :: rest, cache, hc => by
    unfold resolveLoop
    have hf := fetch_cache_truthy reg cache pkg.packageName pkg.packageVersion hc
    have hrec := resolveLoop_cache_truthy reg rest
      (fetchLicenseForPackage reg cache pkg.packageName pkg.packageVersion).2.1 hf
    rcases resolveStep_cache pkg
      (fetchLicenseForPackage reg cache pkg.packageName pkg.packageVersion)
      (resolveLoop reg rest
        (fetchLicenseForPackage reg cache pkg.packageName pkg.packageVersion).2.1) with h | h
    · rw [h]; exact hf
    · rw [h]; exact hrec

/-- Run outcome when an exception escaped the loop. -/
theorem finishRun_eq_error {out : LoopOut} {e : JsError}
    (h : out.result = .error e) :
    finishRun out = ⟨.error e, none, out.events, out.raws, out.cache⟩ := by
  unfold finishRun
  simp only [h]

/-- Run outcome when the batch resolved but `toCsv` threw (empty batch). -/
theorem finishRun_eq_csvNone {out : LoopOut} {recs : List PackageDotJsonDependency}
    (h : out.result = .ok recs) (hc : toCsv recs = none) :
    finishRun out =
      ⟨.error .typeErrorCsvUndefined, none, out.events, out.raws, out.cache⟩ := by
  unfold finishRun
  simp only [h, hc]

/-- Run outcome when the batch resolved and the CSV was written. -/
theorem finishRun_eq_csvSome {out : LoopOut} {recs : List PackageDotJsonDependency}
    {content : String} (h : out.result = .ok recs) (hc : toCsv recs = some content) :
    finishRun out = ⟨.ok recs, some content, out.events, out.raws, out.cache⟩ := by
  unfold finishRun
  simp only [h, hc]

/-- A CSV is only written when the whole batch resolved and `toCsv` succeeded
on it; the written content is exactly `toCsv` of the returned records. -/
theorem finishRun_csv_some {out : LoopOut}
    (h : (finishRun out).csv.isSome = true) :
    ∃ recs, out.result = .ok recs ∧ (finishRun out).result = .ok recs ∧
      (finishRun out).csv = toCsv recs := by
  cases hr : out.result with
  | error e => rw [finishRun_eq_error hr] at h; cases h
  | ok recs =>
    cases hc : toCsv recs with
    | none => rw [finishRun_eq_csvNone hr hc] at h; cases h
    | some content =>
      rw [finishRun_eq_csvSome hr hc] at h ⊢
      exact ⟨recs, rfl, rfl, hc.symm⟩

/-- The sink receives the batch only when no exception escaped the loop. -/
theorem finishRun_ok {out : LoopOut} {recs : List PackageDotJsonDependency}
    (h : (finishRun out).result = .ok recs) : out.result = .ok recs := by
  cases hr : out.result with
  | error e => rw [finishRun_eq_error hr] at h; cases h
  | ok recs' =>
    cases hc : toCsv recs' with
    | none => rw [finishRun_eq_csvNone hr hc] at h; cases h
    | some content =>
      rw [finishRun_eq_csvSome hr hc] at h
      cases h
      rfl

/-- The wrapper `finishRun` reports the loop's trace unchanged. -/
theorem finishRun_events (out : LoopOut) : (finishRun out).events = out.events := by
  cases hr : out.result with
  | error e => rw [finishRun_eq_error hr]
  | ok recs =>
    cases hc : toCsv recs with
    | none => rw [finishRun_eq_csvNone hr hc]
    | some content => rw [finishRun_eq_csvSome hr hc]

/-- The wrapper `finishRun` reports the loop's resolved-value log unchanged. -/
theorem finishRun_raws (out : LoopOut) : (finishRun out).rawLicenses = out.raws := by
  cases hr : out.result with
  | error e => rw [finishRun_eq_error hr]
  | ok recs =>
    cases hc : toCsv recs with
    | none => rw [finishRun_eq_csvNone hr hc]
    | some content => rw [finishRun_eq_csvSome hr hc]

/-- The wrapper `finishRun` reports the loop's final cache unchanged. -/
theorem finishRun_cache (out : LoopOut) : (finishRun out).finalCache = out.cache := by
  cases hr : out.result with
  | error e => rw [finishRun_eq_error hr]
  | ok recs =>
    cases hc : toCsv recs with
    | none => rw [finishRun_eq_csvNone hr hc]
    | some content => rw [finishRun_eq_csvSome hr hc]

/-- Flat concatenation distributes over append. -/
theorem flatMapList_append (f : α → List β) (l₁ l₂ : List α) :
    flatMapList f (l₁ ++ l₂) = flatMapList f l₁ ++ flatMapList f l₂ := by
  induction l₁ with
  | nil => rfl
  | cons x xs ih => simp [flatMapList, ih]

/-- Membership in a flat concatenation. -/
theorem mem_flatMapList {f : α → List β} {b : β} :
    ∀ {l : List α}, b ∈ flatMapList f l → ∃ x ∈ l, b ∈ f x
  | [], h => by cases h
  | x :: xs, h => by
    rcases List.mem_append.mp h with h | h
    · exact ⟨x, List.mem_cons_self x xs, h⟩
    · rcases mem_flatMapList h with ⟨y, hy, hb⟩
      exact ⟨y, List.mem_cons_of_mem x hy, hb⟩

/-- Extracted records leave the license unset. -/
theorem getDependencies_license_none (files : List Manifest)
    (type : PackageDotJsonDependencyType) :
    ∀ r ∈ getDependencies files type, r.packageLicense = none := by
  intro r hr
  rcases mem_flatMapList hr with ⟨m, _, hm⟩
  unfold manifestRecords at hm
  cases hd : m.depsOf type with
  | none => rw [hd] at hm; cases hm
  | some entries =>
    rw [hd] at hm
    rcases List.mem_map.mp hm with ⟨e, _, he⟩
    rw [← he]

/-- Resetting the license field. -/
def stripLicense (r : PackageDotJsonDependency) : PackageDotJsonDependency :=
  { r with packageLicense := none }

/-- Stripping is the identity on freshly extracted records. -/
theorem map_stripLicense_of_none :
    ∀ {l : List PackageDotJsonDependency},
      (∀ r ∈ l, r.packageLicense = none) → l.map stripLicense = l
  | [], _ => rfl
  | r :: rs, h => by
    have hr : r.packageLicense = none := h r (List.mem_cons_self r rs)
    have ht := map_stripLicense_of_none fun x hx => h x (List.mem_cons_of_mem r hx)
    cases r
    simp only [List.map_cons, ht, stripLicense]
    simp_all

/-! ## Canonicality of `semver.coerce` output -/

/-- A digit differs from any non-digit character. -/
theorem digit_ne_of {c : Char} (x : Char) (h : c.isDigit = true)
    (hx : x.isDigit = false) : c ≠ x := by
  intro he
  rw [he] at h
  rw [h] at hx
  cases hx

/-- Digits are not whitespace. -/
theorem digit_not_ws {c : Char} (h : c.isDigit = true) : c.isWhitespace = false := by
  cases hw : c.isWhitespace
  · rfl
  · exfalso
    have hd : ((c = ' ' ∨ c = '\t') ∨ c = '\x0d') ∨ c = '\n' := by
      simpa [Char.isWhitespace] using hw
    rcases hd with ((rfl | rfl) | rfl) | rfl <;> exact absurd h (by decide)

/-- Components accepted by `mainIdOk` are non-empty digit strings. -/
theorem mainIdOk_digits {l : List Char} (h : mainIdOk l = true) :
    l ≠ [] ∧ ∀ x ∈ l, x.isDigit = true := by
  have hn : numericIdOk l = true := by
    unfold mainIdOk at h
    rw [Bool.and_eq_true] at h
    exact h.1
  unfold numericIdOk at hn
  rw [Bool.and_eq_true, Bool.and_eq_true] at hn
  have h3 := hn.1.1
  have h4 := hn.1.2
  constructor
  · intro he
    rw [he] at h3
    simp at h3
  · intro x hx
    have := List.all_eq_true.mp h4 x hx
    simpa using this

/-- Dropping whitespace from a whitespace-free list is the identity. -/
theorem dropWhile_ws_eq_self {l : List Char}
    (h : ∀ x ∈ l, x.isWhitespace = false) :
    l.dropWhile Char.isWhitespace = l := by
  cases l with
  | nil => rfl
  | cons c rest =>
    have := h c (List.mem_cons_self c rest)
    simp [List.dropWhile, this]

/-- Trimming a whitespace-free list is the identity. -/
theorem jsTrim_eq_self {l : List Char}
    (h : ∀ x ∈ l, x.isWhitespace = false) : jsTrim l = l := by
  unfold jsTrim
  rw [dropWhile_ws_eq_self h]
  rw [dropWhile_ws_eq_self (by intro x hx; exact h x (List.mem_reverse.mp hx))]
  exact List.reverse_reverse l

/-- The `v`-strip is the identity on digit-headed lists. -/
theorem stripLeadingV_of_digit {l : List Char}
    (h : ∀ x ∈ l, x.isDigit = true ∨ x = '.') (hne : l ≠ []) :
    stripLeadingV l = l := by
  cases l with
  | nil => cases hne rfl
  | cons c rest =>
    have hc : c.isDigit = true ∨ c = '.' := h c (List.mem_cons_self c rest)
    have : (c == 'v') = false := by
      rcases hc with hd | hd
      · exact beq_eq_false_iff_ne.mpr (digit_ne_of 'v' hd (by decide))
      · subst hd; decide
    simp [stripLeadingV, this]

/-- Breaking at a character that does not occur leaves the list whole. -/
theorem breakFirst_none {ch : Char} :
    ∀ {l : List Char}, (∀ x ∈ l, x ≠ ch) → breakFirst ch l = (l, none)
  | [], _ => rfl
  | c :: rest, h => by
    have hc : (c == ch) = false :=
      beq_eq_false_iff_ne.mpr (h c (List.mem_cons_self c rest))
    simp only [breakFirst, hc, Bool.false_eq_true, if_false,
      breakFirst_none fun x hx => h x (List.mem_cons_of_mem c hx)]

/-- Splitting a separator-free list yields the list itself. -/
theorem splitOnChar_none {ch : Char} :
    ∀ {l : List Char}, (∀ x ∈ l, x ≠ ch) → splitOnChar ch l = [l]
  | [], _ => rfl
  | c :: rest, h => by
    have hc : (c == ch) = false :=
      beq_eq_false_iff_ne.mpr (h c (List.mem_cons_self c rest))
    simp only [splitOnChar, hc, Bool.false_eq_true, if_false,
      splitOnChar_none fun x hx => h x (List.mem_cons_of_mem c hx)]

/-- Splitting peels one separator-free leading part. -/
theorem splitOnChar_append {ch : Char} :
    ∀ {xs : List Char} (ys : List Char), (∀ x ∈ xs, x ≠ ch) →
      splitOnChar ch (xs ++ ch :: ys) = xs :: splitOnChar ch ys
  | [], ys, _ => by simp [splitOnChar]
  | c :: rest, ys, h => by
    have hc : (c == ch) = false :=
      beq_eq_false_iff_ne.mpr (h c (List.mem_cons_self c rest))
    have ih := @splitOnChar_append ch rest ys
      fun x hx => h x (List.mem_cons_of_mem c hx)
    simp only [List.cons_append, splitOnChar, hc, Bool.false_eq_true, if_false,
      List.append_eq, ih]

/-- The characters of a reconstructed `maj.min.pat` string. -/
theorem mainChars {a b c : List Char}
    (ha : mainIdOk a = true) (hb : mainIdOk b = true) (hc : mainIdOk c = true) :
    ∀ x ∈ a ++ '.' :: (b ++ '.' :: c), x.isDigit = true ∨ x = '.' := by
  intro x hx
  rcases List.mem_append.mp hx with h | h
  · exact Or.inl ((mainIdOk_digits ha).2 x h)
  · rcases List.mem_cons.mp h with h | h
    · exact Or.inr h
    · rcases List.mem_append.mp h with h | h
      · exact Or.inl ((mainIdOk_digits hb).2 x h)
      · rcases List.mem_cons.mp h with h | h
        · exact Or.inr h
        · exact Or.inl ((mainIdOk_digits hc).2 x h)

/-- Re-parsing `maj.min.pat` built from valid components succeeds and returns
it verbatim. -/
theorem validCore_canonical {a b c : List Char}
    (ha : mainIdOk a = true) (hb : mainIdOk b = true) (hc : mainIdOk c = true) :
    validCore (a ++ '.' :: (b ++ '.' :: c)) = some (a ++ '.' :: (b ++ '.' :: c)) := by
  have hchars := mainChars ha hb hc
  have hnws : ∀ x ∈ a ++ '.' :: (b ++ '.' :: c), x.isWhitespace = false := by
    intro x hx
    rcases hchars x hx with h | h
    · exact digit_not_ws h
    · subst h; decide
  have htrim := jsTrim_eq_self hnws
  have hne : a ++ '.' :: (b ++ '.' :: c) ≠ [] := by
    intro h
    exact absurd (List.append_eq_nil.mp h).2 (by simp)
  have hv := stripLeadingV_of_digit hchars hne
  have hplus : breakFirst '+' (a ++ '.' :: (b ++ '.' :: c)) =
      (a ++ '.' :: (b ++ '.' :: c), none) := by
    refine breakFirst_none ?_
    intro x hx
    rcases hchars x hx with h | h
    · exact digit_ne_of '+' h (by decide)
    · subst h; decide
  have hminus : breakFirst '-' (a ++ '.' :: (b ++ '.' :: c)) =
      (a ++ '.' :: (b ++ '.' :: c), none) := by
    refine breakFirst_none ?_
    intro x hx
    rcases hchars x hx with h | h
    · exact digit_ne_of '-' h (by decide)
    · subst h; decide
  have hsplit : splitOnChar '.' (a ++ '.' :: (b ++ '.' :: c)) = [a, b, c] := by
    rw [splitOnChar_append (b ++ '.' :: c)
      fun x hx => digit_ne_of '.' ((mainIdOk_digits ha).2 x hx) (by decide)]
    rw [splitOnChar_append c
      fun x hx => digit_ne_of '.' ((mainIdOk_digits hb).2 x hx) (by decide)]
    rw [splitOnChar_none
      fun x hx => digit_ne_of '.' ((mainIdOk_digits hc).2 x hx) (by decide)]
  unfold validCore
  simp only [htrim, hv, hplus, hminus, hsplit, ha, hb, hc]
  simp [List.append_assoc]

/-- All three components a `COERCE` match produces are at most 16 digits. -/
theorem coerceTail_lengths (r1 rest1 : List Char) (h1 : r1.length ≤ 16) :
    (coerceTail r1 rest1).1.length ≤ 16 ∧ (coerceTail r1 rest1).2.1.length ≤ 16 ∧
      (coerceTail r1 rest1).2.2.length ≤ 16 := by
  unfold coerceTail
  split
  · split
    · exact ⟨h1, by simp, by simp⟩
    · rename_i hg
      simp only [Bool.or_eq_true, decide_eq_true_eq, not_or] at hg
      have h2 := Nat.le_of_not_lt hg.2
      split
      · split
        · exact ⟨h1, h2, by simp⟩
        · rename_i hg3
          simp only [Bool.or_eq_true, decide_eq_true_eq, not_or] at hg3
          exact ⟨h1, h2, Nat.le_of_not_lt hg3.2⟩
      · exact ⟨h1, h2, by simp⟩
  · exact ⟨h1, by simp, by simp⟩

/-- Component bounds for any successful `COERCE` scan. -/
theorem coerceScan_lengths :
    ∀ (l : List Char) (p : Bool) (a b c : List Char),
      coerceScan p l = some (a, b, c) →
      a.length ≤ 16 ∧ b.length ≤ 16 ∧ c.length ≤ 16
  | [], _, _, _, _, h => by simp [coerceScan] at h
  | ch :: rest, p, a, b, c, h => by
    unfold coerceScan at h
    by_cases hd : ch.isDigit = true
    · rw [if_pos hd] at h
      by_cases hp : p = true
      · rw [if_pos hp] at h
        exact coerceScan_lengths rest true a b c h
      · rw [if_neg hp] at h
        by_cases hlen : ((ch :: rest.takeWhile (·.isDigit)).length ≤ 16)
        · rw [if_pos (by simpa using hlen)] at h
          injection h with h
          have := coerceTail_lengths (ch :: rest.takeWhile (·.isDigit))
            (rest.dropWhile (·.isDigit)) hlen
          rw [h] at this
          exact this
        · rw [if_neg (by simpa using hlen)] at h
          exact coerceScan_lengths rest true a b c h
    · rw [if_neg hd] at h
      exact coerceScan_lengths rest false a b c h

/-- Component bounds for a successful `COERCE` match. -/
theorem coerceTriple_lengths (l : List Char) (a b c : List Char)
    (h : coerceTriple l = some (a, b, c)) :
    a.length ≤ 16 ∧ b.length ≤ 16 ∧ c.length ≤ 16 :=
  coerceScan_lengths l false a b c h

/-- Computing `String.length` through the constructor. -/
theorem length_mk (l : List Char) : (String.mk l).length = l.length := rfl

/-- What a successful `semver.coerce` tells us about its output. -/
theorem semverCoerce_inv {v out : String} (h : semverCoerce v = some out) :
    ∃ a b c, coerceTriple v.data = some (a, b, c) ∧
      mainIdOk a = true ∧ mainIdOk b = true ∧ mainIdOk c = true ∧
      out = ⟨a ++ '.' :: (b ++ '.' :: c)⟩ := by
  unfold semverCoerce at h
  cases ht : coerceTriple v.data with
  | none => rw [ht] at h; cases h
  | some abc =>
    obtain ⟨a, b, c⟩ := abc
    rw [ht] at h
    have h' : (if (mainIdOk a && mainIdOk b && mainIdOk c) = true then
        some (String.mk (a ++ '.' :: b ++ '.' :: c)) else none) = some out := h
    by_cases hg : (mainIdOk a && mainIdOk b && mainIdOk c) = true
    · rw [if_pos hg] at h'
      injection h' with h'
      rw [Bool.and_eq_true, Bool.and_eq_true] at hg
      refine ⟨a, b, c, rfl, hg.1.1, hg.1.2, hg.2, ?_⟩
      rw [← h']
      congr 1
      simp [List.append_assoc]
    · rw [if_neg hg] at h'
      cases h'

/-- The output of `semver.coerce` is canonical: `semver.valid` re-parses it
to itself (this is why `semver.valid(semver.coerce(v))` equals the coerced
text in `getCleanNpmPackageVersion`). -/
theorem semverCoerce_canonical {v out : String} (h : semverCoerce v = some out) :
    semverValid out = some out := by
  rcases semverCoerce_inv h with ⟨a, b, c, ht, ha, hb, hc, hout⟩
  rcases coerceTriple_lengths v.data a b c ht with ⟨hla, hlb, hlc⟩
  subst hout
  unfold semverValid
  rw [length_mk]
  rw [if_neg (by simp [List.length_append]; omega)]
  have : (String.mk (a ++ '.' :: (b ++ '.' :: c))).data = a ++ '.' :: (b ++ '.' :: c) := rfl
  rw [this, validCore_canonical ha hb hc]
  rfl

/-- Normalization returns the parse result of a strict-valid specifier. -/
theorem clean_of_valid {v w : String} (h : semverValid v = some w) :
    getCleanNpmPackageVersion v = w := by
  unfold getCleanNpmPackageVersion
  rw [h]

/-- Normalization returns the coerced text of a coercible specifier. -/
theorem clean_of_coerce {v c : String} (hv : semverValid v = none)
    (hc : semverCoerce v = some c) : getCleanNpmPackageVersion v = c := by
  unfold getCleanNpmPackageVersion
  rw [hv, hc]
  have hgoal : (match semverValid c with
      | some s => s
      | none => v) = c := by
    rw [semverCoerce_canonical hc]
  exact hgoal

/-- Normalization passes anything else through unchanged. -/
theorem clean_of_opaque {v : String} (hv : semverValid v = none)
    (hc : semverCoerce v = none) : getCleanNpmPackageVersion v = v := by
  unfold getCleanNpmPackageVersion
  rw [hv, hc]

/-! ## Extraction order -/

/-- Without array-index keys, `Object.entries` keeps declaration order. -/
theorem jsEntriesOrder_decl :
    ∀ {entries : List (String × String)},
      (∀ e ∈ entries, isArrayIndexKey e.1 = false) → jsEntriesOrder entries = entries
  | [], _ => rfl
  | e :: rest, h => by
    have he : isArrayIndexKey e.1 = false := h e (List.mem_cons_self e rest)
    have ih := jsEntriesOrder_decl fun x hx => h x (List.mem_cons_of_mem e hx)
    unfold jsEntriesOrder at ih ⊢
    simp only [List.filter_cons, he, Bool.not_false, Bool.false_eq_true, if_false,
      if_true]
    have hsort : (rest.filter fun x => isArrayIndexKey x.1) = [] := by
      have : ∀ x ∈ rest, ¬(isArrayIndexKey x.1 = true) := by
        intro x hx
        rw [h x (List.mem_cons_of_mem e hx)]
        simp
      exact List.filter_eq_nil_iff.mpr this
    rw [hsort] at ih ⊢
    simp only [sortAscByKey, List.nil_append] at ih ⊢
    rw [ih]

/-- Extraction is a homomorphism for manifest concatenation: records appear
in manifest enumeration order. -/
theorem getDependencies_append (files₁ files₂ : List Manifest)
    (type : PackageDotJsonDependencyType) :
    getDependencies (files₁ ++ files₂) type =
      getDependencies files₁ type ++ getDependencies files₂ type := by
  unfold getDependencies
  rw [List.filter_append, flatMapList_append]

/-! ## Run-level consequences -/

/-- A batch at the sink is license-aligned with the resolved-value log. -/
theorem checkDependencies_ok_licenses {reg : Registry} {files : List Manifest}
    {type : PackageDotJsonDependencyType} {cache0 : Cache}
    {recs : List PackageDotJsonDependency}
    (h : (checkDependencies reg files type cache0).result = .ok recs) :
    PairwiseRel
      (fun r v => truthy v = true ∧
        ∃ s, normalizeLicense v = .ok s ∧ r.packageLicense = some s)
      recs (checkDependencies reg files type cache0).rawLicenses := by
  unfold checkDependencies at h ⊢
  rw [finishRun_raws]
  exact resolveLoop_ok_licenses reg _ _ recs (finishRun_ok h)

/-- A batch at the sink is field-aligned with the extracted sequence. -/
theorem checkDependencies_ok_fields {reg : Registry} {files : List Manifest}
    {type : PackageDotJsonDependencyType} {cache0 : Cache}
    {recs : List PackageDotJsonDependency}
    (h : (checkDependencies reg files type cache0).result = .ok recs) :
    PairwiseRel
      (fun r p => r.projectName = p.projectName ∧ r.packageName = p.packageName ∧
        r.packageVersion = p.packageVersion)
      recs (getDependencies files type) := by
  unfold checkDependencies at h
  exact resolveLoop_ok_fields reg _ _ recs (finishRun_ok h)

/-- A local/link specifier never produces events, cached or not. -/
theorem fetch_local_no_events (reg : Registry) (c : Cache) (n v : String)
    (h : isLocalSpecifier v = true) :
    (fetchLicenseForPackage reg c n v).2.2 = [] := by
  unfold fetchLicenseForPackage
  cases hh : cacheHit c (cacheKeyOf n v) with
  | some val => rfl
  | none => rw [fresh_local h]

/-- Every right element of an alignment is related to some left element. -/
theorem pairwiseRel_mem_right {R : α → β → Prop} :
    ∀ {as : List α} {bs : List β}, PairwiseRel R as bs →
      ∀ b ∈ bs, ∃ a ∈ as, R a b
  | [], [], _, _, hb => by cases hb
  | [], _ :: _, h, _, _ => h.elim
  | _ :: _, [], h, _, _ => h.elim
  | a0 :: as, b0 :: bs, h, b, hb => by
    rcases List.mem_cons.mp hb with he | ht
    · subst he
      exact ⟨a0, List.mem_cons_self a0 as, h.1⟩
    · rcases pairwiseRel_mem_right h.2 b ht with ⟨a, ha, hr⟩
      exact ⟨a, List.mem_cons_of_mem a0 ha, hr⟩

/-- Alignment is monotone in the relation. -/
theorem pairwiseRel_imp {R S : α → β → Prop} (h : ∀ a b, R a b → S a b) :
    ∀ {as : List α} {bs : List β}, PairwiseRel R as bs → PairwiseRel S as bs
  | [], [], _ => trivial
  | [], _ :: _, hp => hp.elim
  | _ :: _, [], hp => hp.elim
  | a0 :: as, b0 :: bs, hp => ⟨h a0 b0 hp.1, pairwiseRel_imp h hp.2⟩

/-- A non-empty string is truthy. -/
theorem truthy_vStr_of_ne {s : String} (h : s ≠ "") : truthy (.vStr s) = true := by
  unfold truthy
  cases s with
  | mk data =>
    cases data with
    | nil => cases h rfl
    | cons c cs => rfl

/-- A freshly assigned truthy value is found by the guarded test. -/
theorem cacheHit_insert_truthy (c : Cache) (k : String) (v : JsVal)
    (h : truthy v = true) : cacheHit (cacheInsert c k v) k = some v := by
  simp [cacheHit, cacheLookup_insert_self, h]

/-- A run that ends in an exception writes no CSV. -/
theorem finishRun_result_error_csv {out : LoopOut} {e : JsError}
    (h : (finishRun out).result = .error e) : (finishRun out).csv = none := by
  cases hr : out.result with
  | error e' => rw [finishRun_eq_error hr]
  | ok recs =>
    cases hc : toCsv recs with
    | none => rw [finishRun_eq_csvNone hr hc]
    | some content =>
      rw [finishRun_eq_csvSome hr hc] at h
      cases h

/-! ## Concrete fixtures -/

/-- A registry that always reports the plain license string `MIT`. -/
def regMIT : Registry := fun _ _ => .success (some (.vStr "MIT"))

/-- A registry that reports the structured license `{type: "MIT"}` (the shape
old npm packages actually publish). -/
def regObjMIT : Registry := fun _ _ => .success (some (.vObj [("type", .vStr "MIT")]))

/-- A registry that reports a structured license with an empty `type`. -/
def regEmptyType : Registry := fun _ _ => .success (some (.vObj [("type", .vStr "")]))

/-- A registry that reports a structured license without a `type` field. -/
def regNoType : Registry := fun _ _ => .success (some (.vObj [("name", .vStr "Custom")]))

/-- A registry on which every request fails with `404 Not Found`. -/
def regNotFound : Registry := fun _ _ => .failure (some 404) (some "Not Found")

/-- A registry failing for `pkg-a` and succeeding with `lic` otherwise. -/
def regFailFirst (st : Option Nat) (stx : Option String) (lic : String) : Registry :=
  fun n _ => if n == "pkg-a" then .failure st stx else .success (some (.vStr lic))

/-- Manifest `m.json` declaring `entries` under every dependency kind. -/
def mkManifest (entries : List (String × String)) : Manifest :=
  ⟨"m.json", fun _ => some entries⟩

/-- Manifest `m.json` with no dependency keys at all. -/
def noKindManifest : Manifest := ⟨"m.json", fun _ => none⟩

/-! ## Claims -/

/-- C6 counterexample: `1.2.3+build.1` is a strict semantic version (it is
accepted by strict validation), yet normalization does not return it
unchanged — the build metadata is dropped. -/
theorem C6_counterexample :
    semverValid "1.2.3+build.1" = some "1.2.3" ∧
      getCleanNpmPackageVersion "1.2.3+build.1" = "1.2.3" ∧
      "1.2.3" ≠ "1.2.3+build.1" := by
  refine ⟨by decide, by decide, by decide⟩

/-- C6 (amended): version normalization returns `v` itself unchanged when `v`
is a strict semantic version in canonical form (`valid v = some v`); when `v`
is strict-valid in general it returns the canonical parse (whitespace and a
leading `v` stripped, build metadata dropped); otherwise it returns the
coerced `x.y.z` form when a first `x.y.z`-like token can be extracted;
otherwise it returns the original raw string `v` unchanged — never an error
marker and never blocking the lookup. -/
theorem C6_theorem :
    (∀ v : String, semverValid v = some v → getCleanNpmPackageVersion v = v) ∧
    (∀ v w : String, semverValid v = some w → getCleanNpmPackageVersion v = w) ∧
    (∀ v c : String, semverValid v = none → semverCoerce v = some c →
      getCleanNpmPackageVersion v = c) ∧
    (∀ v : String, semverValid v = none → semverCoerce v = none →
      getCleanNpmPackageVersion v = v) :=
  ⟨fun _ h => clean_of_valid h, fun _ _ h => clean_of_valid h,
   fun _ _ hv hc => clean_of_coerce hv hc, fun _ hv hc => clean_of_opaque hv hc⟩

/-- C6 witness: the four clauses at concrete specifiers. -/
theorem C6_witness :
    getCleanNpmPackageVersion "1.2.3" = "1.2.3" ∧
    getCleanNpmPackageVersion "v3.4.5" = "3.4.5" ∧
    getCleanNpmPackageVersion "^1.2.3" = "1.2.3" ∧
    getCleanNpmPackageVersion "latest" = "latest" :=
  ⟨C6_theorem.1 "1.2.3" (by decide),
   C6_theorem.2.1 "v3.4.5" "3.4.5" (by decide),
   C6_theorem.2.2.1 "^1.2.3" "1.2.3" (by decide) (by decide),
   C6_theorem.2.2.2 "latest" (by decide) (by decide)⟩

/-- C4 counterexample: the local specifier `file:../lib2` is passed through
coercion during extraction, reaches the Registry Client as `2.0.0`, and is
resolved over the network instead of being skipped. -/
theorem C4_counterexample :
    (checkDependencies regMIT [mkManifest [("mylib", "file:../lib2")]]
        .dependencies []).result =
      .ok [⟨"m", "mylib", "2.0.0", some "MIT"⟩] ∧
    (checkDependencies regMIT [mkManifest [("mylib", "file:../lib2")]]
        .dependencies []).events =
      [Event.sleepEv 1001, Event.networkEv "https://registry.npmjs.org/mylib/2.0.0"] ∧
    "MIT" ≠ "[SKIPPED: file:../lib2]" := by
  refine ⟨rfl, rfl, by decide⟩

/-- C4 (amended): for every version specifier the Registry Client receives
whose lowercased form begins with `file:` or `link:`, it resolves to exactly
`[SKIPPED: <specifier>]` with no network request and no rate-limit delay;
however, extraction passes every raw specifier through semantic-version
coercion first, so a local specifier from which an `x.y.z`-like token can be
coerced (e.g. `file:../lib2`) reaches the client in coerced form and is not
skipped. -/
theorem C4_theorem :
    (∀ (reg : Registry) (c : Cache) (n v : String), isLocalSpecifier v = true →
      (fetchLicenseForPackage reg c n v).2.2 = []) ∧
    (∀ (reg : Registry) (c : Cache) (n v : String), isLocalSpecifier v = true →
      cacheHit c (cacheKeyOf n v) = none →
      fetchLicenseForPackage reg c n v =
        (.vStr ("[SKIPPED: " ++ v ++ "]"),
          cacheInsert c (cacheKeyOf n v) (.vStr ("[SKIPPED: " ++ v ++ "]")), [])) ∧
    (getCleanNpmPackageVersion "file:../lib2" = "2.0.0" ∧
      getDependencies [mkManifest [("mylib", "file:../lib2")]] .dependencies =
        [⟨"m", "mylib", "2.0.0", none⟩]) := by
  refine ⟨?_, ?_, by decide, rfl⟩
  · intro reg c n v h
    exact fetch_local_no_events reg c n v h
  · intro reg c n v h hh
    rw [fetch_miss hh, fresh_local h]

/-- C4 witness: the skip clauses at a digit-free local specifier. -/
theorem C4_witness :
    (fetchLicenseForPackage regMIT [] "loc" "file:../foo").2.2 = [] ∧
    fetchLicenseForPackage regMIT [] "loc" "file:../foo" =
      (.vStr ("[SKIPPED: " ++ "file:../foo" ++ "]"),
        cacheInsert [] (cacheKeyOf "loc" "file:../foo")
          (.vStr ("[SKIPPED: " ++ "file:../foo" ++ "]")), []) :=
  ⟨C4_theorem.1 regMIT [] "loc" "file:../foo" (by decide),
   C4_theorem.2.1 regMIT [] "loc" "file:../foo" (by decide) rfl⟩

/-- C3: resolving the identical (package, version) pair twice issues at most
one network request when the first outcome is a skip or a success — the
second resolve returns the identical cached value with an empty trace (no
delay); an `[ERROR: ...]` outcome is not written to the cache, so the second
identical lookup reaches the network again. -/
theorem C3_theorem :
    (∀ (reg : Registry) (c : Cache) (n v : String),
      cacheHit c (cacheKeyOf n v) = none →
      (isLocalSpecifier v = true ∨ ∃ lf, reg n v = .success lf) →
      fetchLicenseForPackage reg (fetchLicenseForPackage reg c n v).2.1 n v =
        ((fetchLicenseForPackage reg c n v).1,
          (fetchLicenseForPackage reg c n v).2.1, []) ∧
      countNetwork ((fetchLicenseForPackage reg c n v).2.2 ++
        (fetchLicenseForPackage reg (fetchLicenseForPackage reg c n v).2.1 n v).2.2) ≤ 1) ∧
    (∀ (reg : Registry) (c : Cache) (n v : String) (st : Option Nat)
      (stx : Option String),
      cacheHit c (cacheKeyOf n v) = none → isLocalSpecifier v = false →
      reg n v = .failure st stx →
      (fetchLicenseForPackage reg c n v).2.1 = c ∧
      countNetwork
        (fetchLicenseForPackage reg (fetchLicenseForPackage reg c n v).2.1 n v).2.2 = 1) := by
  constructor
  · intro reg c n v hh hcase
    rcases hcase with hl | ⟨lf, hs⟩
    · rw [fetch_miss hh, fresh_local hl]
      have hhit := cacheHit_insert_truthy c (cacheKeyOf n v)
        (.vStr ("[SKIPPED: " ++ v ++ "]")) (by simp [truthy, String.data_append])
      rw [fetch_hit hhit]
      exact ⟨rfl, by simp [countNetwork]⟩
    · by_cases hl : isLocalSpecifier v = true
      · rw [fetch_miss hh, fresh_local hl]
        have hhit := cacheHit_insert_truthy c (cacheKeyOf n v)
          (.vStr ("[SKIPPED: " ++ v ++ "]")) (by simp [truthy, String.data_append])
        rw [fetch_hit hhit]
        exact ⟨rfl, by simp [countNetwork]⟩
      · have hl' : isLocalSpecifier v = false := by simpa using hl
        rw [fetch_miss hh, fresh_success hl' hs]
        have hhit := cacheHit_insert_truthy c (cacheKeyOf n v)
          (defaultedLicense lf) (defaultedLicense_truthy lf)
        rw [fetch_hit hhit]
        refine ⟨rfl, ?_⟩
        simp [countNetwork, isNetworkEv]
  · intro reg c n v st stx hh hl hr
    rw [fetch_miss hh, fresh_failure hl hr]
    refine ⟨rfl, ?_⟩
    rw [fetch_miss hh, fresh_failure hl hr]
    simp [countNetwork, isNetworkEv]

/-- C3 witness: a successful resolve cached and replayed without network, and
a failed resolve leaving the cache empty so the retry reaches the network. -/
theorem C3_witness :
    (fetchLicenseForPackage regMIT (fetchLicenseForPackage regMIT [] "p" "1.0.0").2.1
        "p" "1.0.0" =
      ((fetchLicenseForPackage regMIT [] "p" "1.0.0").1,
        (fetchLicenseForPackage regMIT [] "p" "1.0.0").2.1, []) ∧
      countNetwork ((fetchLicenseForPackage regMIT [] "p" "1.0.0").2.2 ++
        (fetchLicenseForPackage regMIT (fetchLicenseForPackage regMIT [] "p" "1.0.0").2.1
          "p" "1.0.0").2.2) ≤ 1) ∧
    ((fetchLicenseForPackage regNotFound [] "p" "1.0.0").2.1 = [] ∧
      countNetwork
        (fetchLicenseForPackage regNotFound
          (fetchLicenseForPackage regNotFound [] "p" "1.0.0").2.1 "p" "1.0.0").2.2 = 1) :=
  ⟨C3_theorem.1 regMIT [] "p" "1.0.0" rfl (Or.inr ⟨some (.vStr "MIT"), rfl⟩),
   C3_theorem.2 regNotFound [] "p" "1.0.0" (some 404) (some "Not Found") rfl (by decide) rfl⟩

/-- C8: in every run, each registry request in the trace is immediately
preceded by the fixed 1001 ms sleep (so no two requests begin less than about
a second apart); cache hits and local/link skips contribute no events — no
delay and no request. -/
theorem C8_theorem :
    (∀ (reg : Registry) (files : List Manifest) (type : PackageDotJsonDependencyType)
      (cache0 : Cache),
      gapOk (checkDependencies reg files type cache0).events = true) ∧
    (∀ (reg : Registry) (c : Cache) (n v : String) (val : JsVal),
      cacheHit c (cacheKeyOf n v) = some val →
      fetchLicenseForPackage reg c n v = (val, c, [])) ∧
    (∀ (reg : Registry) (c : Cache) (n v : String), isLocalSpecifier v = true →
      (fetchLicenseForPackage reg c n v).2.2 = []) := by
  refine ⟨?_, ?_, ?_⟩
  · intro reg files ty c0
    unfold checkDependencies
    rw [finishRun_events]
    exact resolveLoop_gapOk reg _ c0
  · intro reg c n v val h
    exact fetch_hit h
  · intro reg c n v h
    exact fetch_local_no_events reg c n v h

/-- C8 witness: the clauses at a concrete run, a concrete cache hit and a
concrete local specifier. -/
theorem C8_witness :
    gapOk (checkDependencies regMIT [mkManifest [("p", "1.0.0"), ("q", "2.0.0")]]
      .dependencies []).events = true ∧
    fetchLicenseForPackage regMIT [("p@1.0.0", .vStr "MIT")] "p" "1.0.0" =
      (.vStr "MIT", [("p@1.0.0", .vStr "MIT")], []) ∧
    (fetchLicenseForPackage regMIT [] "loc" "link:../bar").2.2 = [] :=
  ⟨C8_theorem.1 regMIT [mkManifest [("p", "1.0.0"), ("q", "2.0.0")]] .dependencies [],
   C8_theorem.2.1 regMIT [("p@1.0.0", .vStr "MIT")] "p" "1.0.0" (.vStr "MIT") rfl,
   C8_theorem.2.2 regMIT [] "loc" "link:../bar" (by decide)⟩

/-- C9: `toCsv` is only defined for a non-empty batch — it reads the first
record to build the header, so it throws on the empty batch; hence a run in
which every manifest lacks the requested kind (zero records extracted) ends
in an exception at CSV-writing time and produces no report. -/
theorem C9_theorem :
    toCsv [] = none ∧
    (∀ (r : PackageDotJsonDependency) (rs : List PackageDotJsonDependency),
      (toCsv (r :: rs)).isSome = true) ∧
    (∀ (reg : Registry) (files : List Manifest)
      (type : PackageDotJsonDependencyType) (cache0 : Cache),
      getDependencies files type = [] →
      (checkDependencies reg files type cache0).result =
        .error .typeErrorCsvUndefined ∧
      (checkDependencies reg files type cache0).csv = none) := by
  refine ⟨rfl, fun r rs => rfl, ?_⟩
  intro reg files ty c0 h
  unfold checkDependencies
  rw [h]
  have hloop : resolveLoop reg [] c0 = ⟨.ok [], c0, [], []⟩ := rfl
  rw [hloop]
  exact ⟨rfl, rfl⟩

/-- C9 witness: a run over one manifest that lacks the requested kind. -/
theorem C9_witness :
    (toCsv [⟨"m", "p", "1.0.0", some "MIT"⟩]).isSome = true ∧
    (checkDependencies regMIT [noKindManifest] .dependencies []).result =
      .error .typeErrorCsvUndefined ∧
    (checkDependencies regMIT [noKindManifest] .dependencies []).csv = none :=
  ⟨C9_theorem.2.1 ⟨"m", "p", "1.0.0", some "MIT"⟩ [],
   (C9_theorem.2.2 regMIT [noKindManifest] .dependencies [] rfl).1,
   (C9_theorem.2.2 regMIT [noKindManifest] .dependencies [] rfl).2⟩

/-- C10 counterexample: a structured license object is stored in the cache
as-is — the cached value for `pkg@1.0.0` is `{type: "MIT"}`, not a string. -/
theorem C10_counterexample :
    cacheLookup (fetchLicenseForPackage regObjMIT [] "pkg" "1.0.0").2.1 "pkg@1.0.0" =
      some (.vObj [("type", .vStr "MIT")]) ∧
    isStringVal (.vObj [("type", .vStr "MIT")]) = false := ⟨rfl, rfl⟩

/-- C10 (amended): every value ever stored in the License Cache is truthy —
a non-empty marker or license string, or a structured license object (cached
as-is, hence not necessarily a string) — so the truthiness-based cache test
never misclassifies a stored entry as absent. -/
theorem C10_theorem :
    (∀ (reg : Registry) (c : Cache) (n v : String),
      (∀ e ∈ c, truthy e.2 = true) →
      ∀ e ∈ (fetchLicenseForPackage reg c n v).2.1, truthy e.2 = true) ∧
    (∀ (reg : Registry) (files : List Manifest)
      (type : PackageDotJsonDependencyType) (cache0 : Cache),
      (∀ e ∈ cache0, truthy e.2 = true) →
      ∀ e ∈ (checkDependencies reg files type cache0).finalCache, truthy e.2 = true) ∧
    (∀ (c : Cache) (k : String) (val : JsVal),
      (∀ e ∈ c, truthy e.2 = true) → cacheLookup c k = some val →
      cacheHit c k = some val) := by
  refine ⟨fetch_cache_truthy, ?_, ?_⟩
  · intro reg files ty c0 hc
    unfold checkDependencies
    rw [finishRun_cache]
    exact resolveLoop_cache_truthy reg _ c0 hc
  · intro c k val hc hl
    have hmem : truthy val = true := by
      unfold cacheLookup at hl
      cases hf : c.find? (fun e => e.1 == k) with
      | none => rw [hf] at hl; cases hl
      | some e =>
        rw [hf] at hl
        injection hl with hl
        rw [← hl]
        exact hc e (List.mem_of_find?_eq_some hf)
    unfold cacheHit
    rw [hl]
    simp [hmem]

/-- C10 witness: the invariant holds after a fetch from the empty cache, over
a whole run, and the guarded test finds a stored entry. -/
theorem C10_witness :
    (∀ e ∈ (fetchLicenseForPackage regObjMIT [] "pkg" "1.0.0").2.1,
      truthy e.2 = true) ∧
    (∀ e ∈ (checkDependencies regMIT [mkManifest [("p", "1.0.0")]]
        .dependencies []).finalCache, truthy e.2 = true) ∧
    cacheHit [("p@1.0.0", .vStr "MIT")] "p@1.0.0" = some (.vStr "MIT") :=
  ⟨C10_theorem.1 regObjMIT [] "pkg" "1.0.0" (by simp),
   C10_theorem.2.1 regMIT [mkManifest [("p", "1.0.0")]] .dependencies [] (by simp),
   C10_theorem.2.2 [("p@1.0.0", .vStr "MIT")] "p@1.0.0" (.vStr "MIT")
     (by intro e he; rcases List.mem_singleton.mp he with rfl; rfl) rfl⟩

/-- C1 counterexample: a registry response `{license: {type: ""}}` puts a
record with an empty-string `packageLicense` at the sink — the batch is
handed to the table and the CSV with `packageLicense = ""`. -/
theorem C1_counterexample :
    (checkDependencies regEmptyType [mkManifest [("pkg", "1.0.0")]]
        .dependencies []).result =
      .ok [⟨"m", "pkg", "1.0.0", some ""⟩] := rfl

/-- C1 (amended): every `DependencyRecord` the pipeline hands to the sink has
a string-typed, assigned `packageLicense` (resolution of a single package that
reaches the sink never leaves it unset or non-string); it is moreover
non-empty — a license identifier, `[BLANK]`, `[SKIPPED: ...]` or
`[ERROR: ...]` — except in the single case that the resolved value was a
structured license object whose `type` field is the empty string, which
reaches the sink as the empty string. -/
theorem C1_theorem (reg : Registry) (files : List Manifest)
    (type : PackageDotJsonDependencyType) (cache0 : Cache)
    (recs : List PackageDotJsonDependency)
    (hok : (checkDependencies reg files type cache0).result = .ok recs)
    (r : PackageDotJsonDependency) (v : JsVal)
    (hmem : (r, v) ∈ recs.zip (checkDependencies reg files type cache0).rawLicenses) :
    (∃ s, r.packageLicense = some s) ∧
      (r.packageLicense = some "" →
        ∃ fields, v = .vObj fields ∧ objLookup fields "type" = some (.vStr "")) := by
  obtain ⟨htr, s, hn, hl⟩ :=
    pairwiseRel_zip_mem (checkDependencies_ok_licenses hok) r v hmem
  refine ⟨⟨s, hl⟩, ?_⟩
  intro hemp
  rw [hl] at hemp
  injection hemp with hemp
  subst hemp
  cases v with
  | vStr t =>
    simp only [normalizeLicense, Except.ok.injEq] at hn
    subst hn
    simp [truthy] at htr
  | vObj fields =>
    refine ⟨fields, rfl, ?_⟩
    cases hlook : objLookup fields "type" with
    | some w =>
      cases w with
      | vStr t =>
        simp only [normalizeLicense, hlook, Except.ok.injEq] at hn
        rw [hn]
      | vNum m => simp [normalizeLicense, hlook] at hn
      | vBool b => simp [normalizeLicense, hlook] at hn
      | vNull => simp [normalizeLicense, hlook] at hn
      | vObj g => simp [normalizeLicense, hlook] at hn
    | none => simp [normalizeLicense, hlook] at hn
  | vNum m => simp [normalizeLicense] at hn
  | vBool b => simp [normalizeLicense] at hn
  | vNull => simp [normalizeLicense] at hn

/-- C1 witness: the invariant at the record of a concrete finished run. -/
theorem C1_witness :
    (∃ s, (⟨"m", "pkg", "1.0.0", some ""⟩ : PackageDotJsonDependency).packageLicense =
        some s) ∧
      ((⟨"m", "pkg", "1.0.0", some ""⟩ : PackageDotJsonDependency).packageLicense =
          some "" →
        ∃ fields, JsVal.vObj [("type", JsVal.vStr "")] = .vObj fields ∧
          objLookup fields "type" = some (.vStr "")) :=
  C1_theorem regEmptyType [mkManifest [("pkg", "1.0.0")]] .dependencies []
    [⟨"m", "pkg", "1.0.0", some ""⟩] rfl
    ⟨"m", "pkg", "1.0.0", some ""⟩ (.vObj [("type", .vStr "")])
    (List.mem_singleton.mpr rfl)

/-- C2: a structured license object with a string `type` field normalizes to
exactly that string; without one the loop throws, the run ends with the
exception, no record reaches the sink and no CSV is written for the kind —
shown in general and on the registry body `{license: {name: "Custom"}}`. -/
theorem C2_theorem :
    (∀ (fields : List (String × JsVal)) (t : String),
      objLookup fields "type" = some (.vStr t) →
      normalizeLicense (.vObj fields) = .ok t) ∧
    (∀ fields : List (String × JsVal), hasStringType fields = false →
      normalizeLicense (.vObj fields) = .error .unrecognizedLicense) ∧
    (∀ (reg : Registry) (files : List Manifest)
      (type : PackageDotJsonDependencyType) (cache0 : Cache)
      (recs : List PackageDotJsonDependency),
      (checkDependencies reg files type cache0).result = .ok recs →
      ∀ v ∈ (checkDependencies reg files type cache0).rawLicenses,
        ∀ fields, v = .vObj fields → hasStringType fields = true) ∧
    (∀ (reg : Registry) (files : List Manifest)
      (type : PackageDotJsonDependencyType) (cache0 : Cache) (e : JsError),
      (checkDependencies reg files type cache0).result = .error e →
      (checkDependencies reg files type cache0).csv = none) ∧
    ((checkDependencies regNoType [mkManifest [("pkg", "1.0.0")]]
        .dependencies []).result = .error .unrecognizedLicense ∧
      (checkDependencies regNoType [mkManifest [("pkg", "1.0.0")]]
        .dependencies []).csv = none) := by
  refine ⟨?_, ?_, ?_, ?_, rfl, rfl⟩
  · intro fields t h
    simp only [normalizeLicense]
    rw [h]
  · intro fields h
    unfold hasStringType at h
    simp only [normalizeLicense]
    cases hlook : objLookup fields "type" with
    | some w =>
      cases w with
      | vStr t => simp [hlook] at h
      | vNum m => rfl
      | vBool b => rfl
      | vNull => rfl
      | vObj g => rfl
    | none => rfl
  · intro reg files ty c0 recs hok v hv fields hfields
    subst hfields
    obtain ⟨r, _, _, s, hn, _⟩ :=
      pairwiseRel_mem_right (checkDependencies_ok_licenses hok) _ hv
    unfold hasStringType
    cases hlook : objLookup fields "type" with
    | some w =>
      cases w with
      | vStr t => rfl
      | vNum m => simp [normalizeLicense, hlook] at hn
      | vBool b => simp [normalizeLicense, hlook] at hn
      | vNull => simp [normalizeLicense, hlook] at hn
      | vObj g => simp [normalizeLicense, hlook] at hn
    | none => simp [normalizeLicense, hlook] at hn
  · intro reg files ty c0 e h
    unfold checkDependencies at h ⊢
    exact finishRun_result_error_csv h

/-- C2 witness: the clauses at concrete license objects and runs. -/
theorem C2_witness :
    normalizeLicense (.vObj [("type", .vStr "MIT")]) = .ok "MIT" ∧
    normalizeLicense (.vObj [("name", .vStr "Custom")]) =
      .error .unrecognizedLicense ∧
    hasStringType [("type", .vStr "MIT")] = true ∧
    (checkDependencies regNoType [mkManifest [("pkg", "1.0.0")]]
      .dependencies []).csv = none :=
  ⟨C2_theorem.1 [("type", .vStr "MIT")] "MIT" rfl,
   C2_theorem.2.1 [("name", .vStr "Custom")] rfl,
   C2_theorem.2.2.1 regObjMIT [mkManifest [("pkg", "1.0.0")]] .dependencies []
     [⟨"m", "pkg", "1.0.0", some "MIT"⟩] rfl (.vObj [("type", .vStr "MIT")])
     (List.mem_singleton.mpr rfl) [("type", .vStr "MIT")] rfl,
   C2_theorem.2.2.2.1 regNoType [mkManifest [("pkg", "1.0.0")]] .dependencies []
     .unrecognizedLicense rfl⟩

/-- C7 counterexample: within one manifest declaring `b` before `7`, the
extracted sequence lists package `7` first — JS own-property order enumerates
the array-index-like key ahead of declaration order. -/
theorem C7_counterexample :
    getDependencies [mkManifest [("b", "1.0.0"), ("7", "2.0.0")]] .dependencies =
      [⟨"m", "7", "2.0.0", none⟩, ⟨"m", "b", "1.0.0", none⟩] ∧
    getDependencies [mkManifest [("b", "1.0.0"), ("7", "2.0.0")]] .dependencies ≠
      [⟨"m", "b", "1.0.0", none⟩, ⟨"m", "7", "2.0.0", none⟩] := by
  refine ⟨rfl, by decide⟩

/-- C7 (amended): extraction lists records in manifest enumeration order; and
within each manifest in the declaration order of its dependency entries
except that package names that are array-index strings are enumerated first,
in ascending numeric order (JS own-property order) — declaration order is
preserved whenever no such name occurs; resolution iterates that sequence
strictly in order, once per record. -/
theorem C7_theorem :
    (∀ (files₁ files₂ : List Manifest) (type : PackageDotJsonDependencyType),
      getDependencies (files₁ ++ files₂) type =
        getDependencies files₁ type ++ getDependencies files₂ type) ∧
    (∀ entries : List (String × String),
      (∀ e ∈ entries, isArrayIndexKey e.1 = false) →
      jsEntriesOrder entries = entries) ∧
    (∀ (reg : Registry) (files : List Manifest)
      (type : PackageDotJsonDependencyType) (cache0 : Cache)
      (recs : List PackageDotJsonDependency),
      (checkDependencies reg files type cache0).result = .ok recs →
      recs.map stripLicense = getDependencies files type ∧
      recs.length = (checkDependencies reg files type cache0).rawLicenses.length) := by
  refine ⟨getDependencies_append, fun entries h => jsEntriesOrder_decl h, ?_⟩
  intro reg files ty c0 recs hok
  constructor
  · have hstrip : PairwiseRel (fun r p => stripLicense r = stripLicense p) recs
        (getDependencies files ty) := by
      refine pairwiseRel_imp ?_ (checkDependencies_ok_fields hok)
      rintro a b ⟨h1, h2, h3⟩
      cases a
      cases b
      simp_all [stripLicense]
    rw [pairwiseRel_map_eq hstrip,
      map_stripLicense_of_none (getDependencies_license_none files ty)]
  · exact pairwiseRel_length (checkDependencies_ok_licenses hok)

/-- C7 witness: the clauses at two concrete manifests and a finished run. -/
theorem C7_witness :
    getDependencies [⟨"proj-a.json", fun _ => some [("left-pad", "1.0.0")]⟩,
        ⟨"proj-b.json", fun _ => some [("right-pad", "2.0.0")]⟩] .dependencies =
      getDependencies [⟨"proj-a.json", fun _ => some [("left-pad", "1.0.0")]⟩]
        .dependencies ++
      getDependencies [⟨"proj-b.json", fun _ => some [("right-pad", "2.0.0")]⟩]
        .dependencies ∧
    jsEntriesOrder [("left-pad", "1.0.0"), ("right-pad", "2.0.0")] =
      [("left-pad", "1.0.0"), ("right-pad", "2.0.0")] ∧
    ([⟨"m", "p", "1.0.0", some "MIT"⟩] :
        List PackageDotJsonDependency).map stripLicense =
      getDependencies [mkManifest [("p", "1.0.0")]] .dependencies :=
  ⟨(C7_theorem.1 [⟨"proj-a.json", fun _ => some [("left-pad", "1.0.0")]⟩]
      [⟨"proj-b.json", fun _ => some [("right-pad", "2.0.0")]⟩] .dependencies :),
   C7_theorem.2.1 [("left-pad", "1.0.0"), ("right-pad", "2.0.0")] (by decide),
   (C7_theorem.2.2 regMIT [mkManifest [("p", "1.0.0")]] .dependencies []
     [⟨"m", "p", "1.0.0", some "MIT"⟩] rfl).1⟩

/-- A step whose fetch normalized to `s` and whose tail succeeded. -/
theorem resolveStep_ok_eq (pkg : PackageDotJsonDependency)
    (f : JsVal × Cache × List Event) (t : LoopOut) (s : String)
    (rs : List PackageDotJsonDependency)
    (hn : normalizeLicense f.1 = .ok s) (ht : t.result = .ok rs) :
    resolveStep pkg f t =
      ⟨.ok ({ pkg with packageLicense := some s } :: rs), t.cache,
        f.2.2 ++ t.events, f.1 :: t.raws⟩ := by
  unfold resolveStep
  rw [hn, ht]

/-- C5: the Registry Client's resolve never raises — every failed request
(non-2xx, network failure, timeout), with or without structured status
information, yields the string `[ERROR: <status>: <statusText>]` (the parts
rendering as `undefined` when absent) and leaves the cache untouched; and a
registry failure for the first package of a run does not prevent the next
package from being attempted and resolved. -/
theorem C5_theorem :
    (∀ (reg : Registry) (c : Cache) (n v : String) (st : Option Nat)
      (stx : Option String),
      cacheHit c (cacheKeyOf n v) = none → isLocalSpecifier v = false →
      reg n v = .failure st stx →
      fetchLicenseForPackage reg c n v =
        (.vStr ("[ERROR: " ++ jsTemplateNat st ++ ": " ++ jsTemplateStr stx ++ "]"), c,
          [Event.sleepEv 1001, Event.networkEv (registryUrlOf n v)])) ∧
    (∀ (st : Option Nat) (stx : Option String) (lic : String), lic ≠ "" →
      (checkDependencies (regFailFirst st stx lic)
          [mkManifest [("pkg-a", "1.0.0"), ("pkg-b", "2.0.0")]]
          .dependencies []).result =
        .ok [⟨"m", "pkg-a", "1.0.0",
              some ("[ERROR: " ++ jsTemplateNat st ++ ": " ++ jsTemplateStr stx ++ "]")⟩,
            ⟨"m", "pkg-b", "2.0.0", some lic⟩]) := by
  constructor
  · intro reg c n v st stx hh hl hr
    rw [fetch_miss hh, fresh_failure hl hr]
  · intro st stx lic hlic
    have hd : defaultedLicense (some (.vStr lic)) = .vStr lic := by
      simp [defaultedLicense, truthy_vStr_of_ne hlic]
    have hf1 : fetchLicenseForPackage (regFailFirst st stx lic) [] "pkg-a" "1.0.0" =
        (.vStr ("[ERROR: " ++ jsTemplateNat st ++ ": " ++ jsTemplateStr stx ++ "]"), [],
          [Event.sleepEv 1001, Event.networkEv (registryUrlOf "pkg-a" "1.0.0")]) := by
      rw [fetch_miss (show cacheHit [] (cacheKeyOf "pkg-a" "1.0.0") = none from rfl),
        fresh_failure (by decide) rfl]
    have hf2 : fetchLicenseForPackage (regFailFirst st stx lic) [] "pkg-b" "2.0.0" =
        (.vStr lic, cacheInsert [] (cacheKeyOf "pkg-b" "2.0.0") (.vStr lic),
          [Event.sleepEv 1001, Event.networkEv (registryUrlOf "pkg-b" "2.0.0")]) := by
      rw [fetch_miss (show cacheHit [] (cacheKeyOf "pkg-b" "2.0.0") = none from rfl),
        fresh_success (by decide) rfl, hd]
    have hstep2 : resolveLoop (regFailFirst st stx lic)
        [⟨"m", "pkg-b", "2.0.0", none⟩] [] =
        ⟨.ok [⟨"m", "pkg-b", "2.0.0", some lic⟩],
          cacheInsert [] (cacheKeyOf "pkg-b" "2.0.0") (.vStr lic),
          [Event.sleepEv 1001, Event.networkEv (registryUrlOf "pkg-b" "2.0.0")] ++ [],
          [.vStr lic]⟩ := by
      unfold resolveLoop
      dsimp only
      rw [hf2]
      exact resolveStep_ok_eq _ _ _ lic [] rfl rfl
    have hloop : resolveLoop (regFailFirst st stx lic)
        [⟨"m", "pkg-a", "1.0.0", none⟩, ⟨"m", "pkg-b", "2.0.0", none⟩] [] =
        ⟨.ok [⟨"m", "pkg-a", "1.0.0",
              some ("[ERROR: " ++ jsTemplateNat st ++ ": " ++ jsTemplateStr stx ++ "]")⟩,
            ⟨"m", "pkg-b", "2.0.0", some lic⟩],
          cacheInsert [] (cacheKeyOf "pkg-b" "2.0.0") (.vStr lic),
          [Event.sleepEv 1001, Event.networkEv (registryUrlOf "pkg-a" "1.0.0")] ++
            ([Event.sleepEv 1001, Event.networkEv (registryUrlOf "pkg-b" "2.0.0")] ++ []),
          .vStr ("[ERROR: " ++ jsTemplateNat st ++ ": " ++ jsTemplateStr stx ++ "]") ::
            [.vStr lic]⟩ := by
      unfold resolveLoop
      dsimp only
      rw [hf1, hstep2]
      exact resolveStep_ok_eq _ _ _ _ _ rfl rfl
    unfold checkDependencies
    have hdeps : getDependencies
        [mkManifest [("pkg-a", "1.0.0"), ("pkg-b", "2.0.0")]] .dependencies =
        [⟨"m", "pkg-a", "1.0.0", none⟩, ⟨"m", "pkg-b", "2.0.0", none⟩] := rfl
    rw [hdeps, hloop]
    rfl

/-- C5 witness: the failure clause at a concrete 404 and a failure without a
structured response, and the isolation clause at a concrete license. -/
theorem C5_witness :
    fetchLicenseForPackage regNotFound [] "p" "1.0.0" =
      (.vStr ("[ERROR: " ++ jsTemplateNat (some 404) ++ ": " ++
        jsTemplateStr (some "Not Found") ++ "]"), [],
        [Event.sleepEv 1001, Event.networkEv (registryUrlOf "p" "1.0.0")]) ∧
    (checkDependencies (regFailFirst none none "ISC")
        [mkManifest [("pkg-a", "1.0.0"), ("pkg-b", "2.0.0")]]
        .dependencies []).result =
      .ok [⟨"m", "pkg-a", "1.0.0",
            some ("[ERROR: " ++ jsTemplateNat none ++ ": " ++ jsTemplateStr none ++ "]")⟩,
          ⟨"m", "pkg-b", "2.0.0", some "ISC"⟩] :=
  ⟨C5_theorem.1 regNotFound [] "p" "1.0.0" (some 404) (some "Not Found") rfl
    (by decide) rfl,
   C5_theorem.2 none none "ISC" (by decide)⟩

end LicenseChecker

